import Mathlib

/-!
Verification development for the MKLDNN plugin node core
(`mkldnn_node.cpp` of the OpenVINO CPU backend).

The C++ source is shallowly embedded: every embedded definition is
translated from the corresponding source function.  Machine integers are
modelled as `Nat`/`Int` (none of the embedded routines relies on overflow),
`std::vector` as `List`, maps as association lists, weak pointers as
association-list lookups returning `Option` (a failed lookup models an
expired weak reference), and code paths that throw (`IE_THROW`) return
`Except.error`.  Opaque collaborators that the source only calls
(layout-compatibility tests, the implementation-name parser, the hash
function of the weight cache) are taken as explicit function parameters,
since only their results — never their internals — influence the embedded
control flow.  Enumeration values (`impl_desc_type`, the `Type` tag enum,
DNNL argument-role ids) are modelled by distinct constants; the embedded
code only ever compares them for equality.
-/

/-! ## Operator-type tags and `TypeFromName` (source lines 56-150) -/

/-- The `Type` enum of the plugin (the tag values referenced by
`type_to_name_tbl`).  Named `NodeType` because `Type` is a Lean keyword. -/
inductive NodeType where
  | Unknown | Input | Output | Reorder | Convolution | Eltwise | Lrn
  | Pooling | FullyConnected | Gemm | SoftMax | Split | Concatenation
  | Deconvolution | Reshape | Tile | SimplerNMS | ROIAlign | ROIPooling
  | BatchNormalization | Flatten | Pad | Permute | StridedSlice | Copy
  | RNNCell | RNNSeq | Quantize | BinaryConvolution | DeformableConvolution
  | TensorIterator | MemoryInput | MemoryOutput | Convert | MVN | Normalize
  | ScatterUpdate | ScatterElementsUpdate | ScatterNDUpdate | Interpolate
  | ReduceAnd | ReduceL1 | ReduceL2 | ReduceLogSum | ReduceLogSumExp
  | ReduceMax | ReduceMean | ReduceMin | ReduceOr | ReduceProd | ReduceSum
  | ReduceSumSquare
deriving DecidableEq

open NodeType in
/-- The `type_to_name_tbl` caseless map, entry for entry in source order.
The C++ container is a caseless `unordered_map` built from this initializer
list; on caseless-duplicate keys the first occurrence wins, which matches
first-match lookup on this list. -/
def type_to_name_tbl : List (String × NodeType) := [
  ("Unknown", Unknown),
  ("Input", Input),
  ("Const", Input),
  ("Output", Output),
  ("Reorder", Reorder),
  ("Convolution", Convolution),
  ("ReLU", Eltwise),
  ("GELU", Eltwise),
  ("ELU", Eltwise),
  ("Sigmoid", Eltwise),
  ("Logistic", Eltwise),
  ("TanH", Eltwise),
  ("ReLU6", Eltwise),
  ("Exp", Eltwise),
  ("Not", Eltwise),
  ("Activation", Eltwise),
  ("Clamp", Eltwise),
  ("Swish", Eltwise),
  ("HSwish", Eltwise),
  ("Mish", Eltwise),
  ("HSigmoid", Eltwise),
  ("Round", Eltwise),
  ("ScaleShift", Eltwise),
  ("PReLU", Eltwise),
  ("Norm", Lrn),
  ("LRN", Lrn),
  ("Pooling", Pooling),
  ("FullyConnected", FullyConnected),
  ("InnerProduct", FullyConnected),
  ("Gemm", Gemm),
  ("Softmax", SoftMax),
  ("SoftMax", SoftMax),
  ("Split", Split),
  ("Slice", Split),
  ("Concat", Concatenation),
  ("Deconvolution", Deconvolution),
  ("Eltwise", Eltwise),
  ("Mod", Eltwise),
  ("Power", Eltwise),
  ("Reshape", Reshape),
  ("Tile", Tile),
  ("SimplerNMS", SimplerNMS),
  ("ROIAlign", ROIAlign),
  ("ROIPooling", ROIPooling),
  ("BatchNormalization", BatchNormalization),
  ("Flatten", Flatten),
  ("Pad", Pad),
  ("Permute", Permute),
  ("StridedSlice", StridedSlice),
  ("Copy", Copy),
  ("LSTMCell", RNNCell),
  ("GRUCell", RNNCell),
  ("RNNCell", RNNCell),
  ("LSTMSequence", RNNSeq),
  ("GRUSequence", RNNSeq),
  ("RNNSequence", RNNSeq),
  ("Quantize", Quantize),
  ("FakeQuantize", Quantize),
  ("BinaryConvolution", BinaryConvolution),
  ("DeformableConvolution", DeformableConvolution),
  ("TensorIterator", TensorIterator),
  ("Loop", TensorIterator),
  ("MemoryInput", MemoryInput),
  ("Memory", MemoryOutput),
  ("Convert", Convert),
  ("MVN", MVN),
  ("Normalize", Normalize),
  ("ScatterUpdate", ScatterUpdate),
  ("ScatterElementsUpdate", ScatterElementsUpdate),
  ("ScatterNDUpdate", ScatterNDUpdate),
  ("Interpolate", Interpolate),
  ("ReduceAnd", ReduceAnd),
  ("ReduceL1", ReduceL1),
  ("ReduceL2", ReduceL2),
  ("ReduceLogSum", ReduceLogSum),
  ("ReduceLogSumExp", ReduceLogSumExp),
  ("ReduceMax", ReduceMax),
  ("ReduceMean", ReduceMean),
  ("ReduceMin", ReduceMin),
  ("ReduceOr", ReduceOr),
  ("ReduceProd", ReduceProd),
  ("ReduceSum", ReduceSum),
  ("ReduceSumSquare", ReduceSumSquare),
  ("Erf", Eltwise)]

/-- ASCII lower-casing of one character code (`std::tolower` on the
character values the table uses). -/
def lowerCode (n : Nat) : Nat := if 65 ≤ n ∧ n ≤ 90 then n + 32 else n

/-- The case-folded key of a string, character code by character code. -/
def lowerKey (s : String) : List Nat := s.data.map (fun c => lowerCode c.toNat)

/-- Caseless string comparison, as `InferenceEngine::details::CaselessEq`. -/
def caselessEq (a b : String) : Bool := lowerKey a == lowerKey b

/-- `TypeFromName` (source lines 143-150): caseless table lookup,
absent names resolve to `Unknown`. -/
def TypeFromName (t : String) : NodeType :=
  match type_to_name_tbl.find? (fun p => caselessEq p.1 t) with
  | some p => p.2
  | none => NodeType.Unknown

/-! ## `impl_desc_type` constants and `getPrimitivesPriority`
(source lines 856-889)

The real `impl_desc_type` values are bitmask combinations; the embedded
code only compares them for equality, so they are modelled as distinct
naturals. -/

namespace impl_desc_type

def unknown : Nat := 0
def jit_uni_dw : Nat := 1
def jit_uni_1x1 : Nat := 2
def jit_uni : Nat := 3
def jit_avx512_dw : Nat := 4
def jit_avx512_1x1 : Nat := 5
def jit_avx512 : Nat := 6
def jit_avx2_dw : Nat := 7
def jit_avx2_1x1 : Nat := 8
def jit_avx2 : Nat := 9
def jit_avx_dw : Nat := 10
def jit_avx_1x1 : Nat := 11
def jit_avx : Nat := 12
def jit_sse42_dw : Nat := 13
def jit_sse42_1x1 : Nat := 14
def jit_sse42 : Nat := 15
def gemm_any : Nat := 16
def gemm_blas : Nat := 17
def gemm_avx512 : Nat := 18
def gemm_avx2 : Nat := 19
def gemm_avx : Nat := 20
def gemm_sse42 : Nat := 21
def jit_gemm : Nat := 22
def ref_any : Nat := 23
def ref : Nat := 24

end impl_desc_type

/-- The built-in default priority list of `getPrimitivesPriority`
(source lines 857-883), in source order. -/
def defaultPriorities : List Nat := [
  impl_desc_type.unknown,
  impl_desc_type.jit_uni_dw,
  impl_desc_type.jit_uni_1x1,
  impl_desc_type.jit_uni,
  impl_desc_type.jit_avx512_dw,
  impl_desc_type.jit_avx512_1x1,
  impl_desc_type.jit_avx512,
  impl_desc_type.jit_avx2_dw,
  impl_desc_type.jit_avx2_1x1,
  impl_desc_type.jit_avx2,
  impl_desc_type.jit_avx_dw,
  impl_desc_type.jit_avx_1x1,
  impl_desc_type.jit_avx,
  impl_desc_type.jit_sse42_dw,
  impl_desc_type.jit_sse42_1x1,
  impl_desc_type.jit_sse42,
  impl_desc_type.gemm_any,
  impl_desc_type.gemm_blas,
  impl_desc_type.gemm_avx512,
  impl_desc_type.gemm_avx2,
  impl_desc_type.gemm_avx,
  impl_desc_type.gemm_sse42,
  impl_desc_type.jit_gemm,
  impl_desc_type.ref_any,
  impl_desc_type.ref]

/-- `getPrimitivesPriority` (source lines 884-888): append each default
implementation type to the node's user-supplied `implPriorities` unless it
is already present in the (growing) list, and return the result. -/
def getPrimitivesPriority (implPriorities : List Nat) : List Nat :=
  defaultPriorities.foldl
    (fun acc impl => if impl ∈ acc then acc else acc ++ [impl]) implPriorities

/-! ## Theorems for C9 and C10 -/

theorem foldl_dedup_append (ds u : List Nat) (h : ds.Nodup) :
    ds.foldl (fun acc impl => if impl ∈ acc then acc else acc ++ [impl]) u
      = u ++ ds.filter (fun i => decide (¬ i ∈ u)) := by
  induction ds generalizing u with
  | nil => simp
  | cons d ds ih =>
    rcases List.nodup_cons.mp h with ⟨hd, hds⟩
    by_cases hdu : d ∈ u
    · simp [List.foldl_cons, hdu, ih u hds, List.filter_cons]
    · simp only [List.foldl_cons, if_neg hdu]
      rw [ih (u ++ [d]) hds]
      have hcongr : ∀ i ∈ ds, (decide (¬ i ∈ u ++ [d])) = (decide (¬ i ∈ u)) := by
        intro i hi
        have hne : i ≠ d := fun e => hd (e ▸ hi)
        simp [List.mem_append, hne]
      rw [List.filter_congr hcongr]
      simp [List.filter_cons, hdu, List.append_assoc]

/-- C10: `getPrimitivesPriority` returns the user-specified priority entries
first (in declaration order) followed by each default implementation type not
already present; the result is never empty and always contains the reference
implementation types `ref_any` and `ref`. -/
theorem C10_getPrimitivesPriority (u : List Nat) :
    getPrimitivesPriority u = u ++ defaultPriorities.filter (fun i => decide (¬ i ∈ u))
    ∧ getPrimitivesPriority u ≠ []
    ∧ impl_desc_type.ref_any ∈ getPrimitivesPriority u
    ∧ impl_desc_type.ref ∈ getPrimitivesPriority u := by
  have hnd : defaultPriorities.Nodup := by decide
  have hchar := foldl_dedup_append defaultPriorities u hnd
  have hmem : ∀ x : Nat, x ∈ defaultPriorities → x ∈ getPrimitivesPriority u := by
    intro x hx
    rw [getPrimitivesPriority, hchar]
    by_cases hxu : x ∈ u
    · exact List.mem_append.mpr (Or.inl hxu)
    · exact List.mem_append.mpr (Or.inr (List.mem_filter.mpr ⟨hx, by simpa using hxu⟩))
  refine ⟨hchar, ?_, hmem _ (by decide), hmem _ (by decide)⟩
  intro hnil
  have hra := hmem impl_desc_type.ref_any (by decide)
  rw [hnil] at hra
  exact List.not_mem_nil _ hra

/-- C9: `TypeFromName` resolves operator-type names case-insensitively
through the alias table: strings with equal case-folded keys resolve to the
same tag, every table entry resolves to its tag (so each alias set maps to
its single tag; in particular "ReLU", "GELU", "Sigmoid", "TanH" and "Swish"
all map to `Eltwise`), and a name matching no table entry maps to
`Unknown`. -/
theorem C9_TypeFromName :
    (∀ s t : String, lowerKey s = lowerKey t → TypeFromName s = TypeFromName t)
    ∧ (∀ p ∈ type_to_name_tbl, TypeFromName p.1 = p.2)
    ∧ TypeFromName "ReLU" = NodeType.Eltwise
    ∧ TypeFromName "GELU" = NodeType.Eltwise
    ∧ TypeFromName "Sigmoid" = NodeType.Eltwise
    ∧ TypeFromName "TanH" = NodeType.Eltwise
    ∧ TypeFromName "Swish" = NodeType.Eltwise
    ∧ (∀ s : String, (∀ p ∈ type_to_name_tbl, caselessEq p.1 s = false) →
        TypeFromName s = NodeType.Unknown) := by
  refine ⟨?_, ?_, by rfl, by rfl, by rfl, by rfl, by rfl, ?_⟩
  · intro s t h
    simp only [TypeFromName, caselessEq, h]
  · decide
  · intro s h
    have hnone : type_to_name_tbl.find? (fun p => caselessEq p.1 s) = none :=
      List.find?_eq_none.mpr (fun p hp => by simp [h p hp])
    simp [TypeFromName, hnone]

theorem C9_TypeFromName_witness :
    TypeFromName "RELU" = TypeFromName "relu"
    ∧ TypeFromName "NoSuchOperation" = NodeType.Unknown := by
  refine ⟨C9_TypeFromName.1 "RELU" "relu" (by decide), ?_⟩
  exact C9_TypeFromName.2.2.2.2.2.2.2 "NoSuchOperation" (by decide)

/-! ## `PrimitivesPriority` parsing in the node constructor
(source lines 181-192)

`parse_impl_name` lives outside the embedded translation unit; it is taken
as a parameter.  The C++ loop splits the parameter string on commas; each
entry not starting with "cpu:" is skipped, and an entry whose parsed
implementation is `unknown` while the entry is not the literal
"cpu:unknown" throws. -/

/-- `str.substr(0, 4) == "cpu:"` on character data. -/
def startsWithCpu (s : String) : Bool := s.data.take 4 == "cpu:".data

def parsePriorityEntries (parseImpl : String → Nat) : List String → Except Unit (List Nat)
  | [] => Except.ok []
  | str :: rest =>
    if startsWithCpu str = false then parsePriorityEntries parseImpl rest
    else
      if parseImpl str = impl_desc_type.unknown ∧ str ≠ "cpu:unknown" then Except.error ()
      else
        match parsePriorityEntries parseImpl rest with
        | Except.ok l => Except.ok (parseImpl str :: l)
        | Except.error e => Except.error e

/-- The `PrimitivesPriority` parsing loop of the constructor: split the
parameter value on commas and process each entry. -/
def parsePrimitivesPriority (parseImpl : String → Nat) (s : String) :
    Except Unit (List Nat) :=
  parsePriorityEntries parseImpl (s.splitOn ",")

/-! ## Edge linkage: `addEdge` / `removeEdge` (source lines 220-255) -/

structure EdgeRec where
  parent : Nat
  child : Nat
  parentPort : Nat
  childPort : Nat
deriving DecidableEq

/-- First-match association-list lookup (also the model of locking a weak
pointer held as an id: an absent id is an expired reference). -/
def alookup {α : Type} (l : List (Nat × α)) (k : Nat) : Option α :=
  (l.find? (fun p => p.1 == k)).map Prod.snd

/-- Association-list update (replace the first binding or append). -/
def setA {α : Type} : List (Nat × α) → Nat → α → List (Nat × α)
  | [], k, v => [(k, v)]
  | (k', v') :: t, k, v =>
    if k' = k then (k, v) :: t else (k', v') :: setA t k v

structure EdgeGraph where
  edges : List (Nat × EdgeRec)
  childEdges : List (Nat × List Nat)
  parentEdges : List (Nat × List Nat)
deriving DecidableEq

def edgeListOf (m : List (Nat × List Nat)) (n : Nat) : List Nat :=
  (alookup m n).getD []

/-- `MKLDNNNode::addEdge`: no-op on an expired edge, else push the edge onto
the parent's `childEdges` and the child's `parentEdges`. -/
def addEdge (g : EdgeGraph) (eid : Nat) : EdgeGraph :=
  match alookup g.edges eid with
  | none => g
  | some r =>
    { g with
      childEdges := setA g.childEdges r.parent (edgeListOf g.childEdges r.parent ++ [eid]),
      parentEdges := setA g.parentEdges r.child (edgeListOf g.parentEdges r.child ++ [eid]) }

/-- The scan predicate of `removeEdge`: the list entry locks to a live edge
whose endpoints are the given (parent, child) pair. -/
def edgeMatches (edges : List (Nat × EdgeRec)) (p c : Nat) (x : Nat) : Bool :=
  match alookup edges x with
  | some r => r.parent == p && r.child == c
  | none => false

/-- Erase the first list entry matching the (parent, child) pair
(the `erase`-then-`break` loop of `removeEdge`). -/
def removeFirstMatch (edges : List (Nat × EdgeRec)) (p c : Nat) : List Nat → List Nat
  | [] => []
  | x :: rest =>
    if edgeMatches edges p c x then rest
    else x :: removeFirstMatch edges p c rest

/-- `MKLDNNNode::removeEdge`: no-op on an expired edge, else erase the first
(parent, child)-matching entry from the child's `parentEdges` and from the
parent's `childEdges`. -/
def removeEdge (g : EdgeGraph) (eid : Nat) : EdgeGraph :=
  match alookup g.edges eid with
  | none => g
  | some r =>
    { g with
      parentEdges := setA g.parentEdges r.child
        (removeFirstMatch g.edges r.parent r.child (edgeListOf g.parentEdges r.child)),
      childEdges := setA g.childEdges r.parent
        (removeFirstMatch g.edges r.parent r.child (edgeListOf g.childEdges r.parent)) }

theorem alookup_setA_self {α : Type} (l : List (Nat × α)) (k : Nat) (v : α) :
    alookup (setA l k v) k = some v := by
  induction l with
  | nil => simp [setA, alookup, List.find?]
  | cons p t ih =>
    by_cases h : p.1 = k
    · simp [setA, h, alookup, List.find?]
    · simpa [setA, h, alookup, List.find?, Ne.symm h] using ih
theorem alookup_setA_ne {α : Type} (l : List (Nat × α)) (k k' : Nat) (v : α)
    (h : k' ≠ k) : alookup (setA l k v) k' = alookup l k' := by
  have hkk : (k == k') = false := by simp [Ne.symm h]
  induction l with
  | nil => simp [setA, alookup, List.find?, hkk]
  | cons p t ih =>
    obtain ⟨a, b⟩ := p
    by_cases hp : a = k
    · subst hp
      simp [setA, alookup, List.find?, hkk]
    · by_cases hp' : a = k'
      · subst hp'
        simp [setA, alookup, List.find?, hp]
      · have ha : (a == k') = false := by simp [hp']
        simpa [setA, alookup, List.find?, hp, ha] using ih

/-- C7: in the comma-split `PrimitivesPriority` list, every entry that does
not start with "cpu:" is silently skipped (removing it changes nothing and
it can never raise), and the parse errors exactly when some entry starts
with "cpu:" yet parses to the `unknown` implementation without being the
literal "cpu:unknown" (i.e. its token is not a recognized implementation
name). -/
theorem C7_primitivesPriority_parsing (parseImpl : String → Nat) :
    (∀ xs ys e, startsWithCpu e = false →
      parsePriorityEntries parseImpl (xs ++ e :: ys)
        = parsePriorityEntries parseImpl (xs ++ ys))
    ∧ (∀ entries, parsePriorityEntries parseImpl entries = Except.error () ↔
        ∃ e ∈ entries, startsWithCpu e = true
          ∧ parseImpl e = impl_desc_type.unknown ∧ e ≠ "cpu:unknown") := by
  constructor
  · intro xs ys e he
    induction xs with
    | nil => simp [parsePriorityEntries, he]
    | cons x xs ih =>
      simp only [List.cons_append, parsePriorityEntries, List.append_eq, ih]
  · intro entries
    induction entries with
    | nil => simp [parsePriorityEntries]
    | cons e rest ih =>
      simp only [parsePriorityEntries]
      by_cases h1 : startsWithCpu e = false
      · rw [if_pos h1, ih]
        constructor
        · rintro ⟨x, hx, hp⟩
          exact ⟨x, List.mem_cons_of_mem e hx, hp⟩
        · rintro ⟨x, hx, hp⟩
          rcases List.mem_cons.mp hx with rfl | hx'
          · rw [h1] at hp
            exact absurd hp.1 (by simp)
          · exact ⟨x, hx', hp⟩
      · have h1' : startsWithCpu e = true := by
          revert h1
          cases startsWithCpu e <;> simp
        rw [if_neg (by simp [h1'])]
        by_cases h2 : parseImpl e = impl_desc_type.unknown ∧ e ≠ "cpu:unknown"
        · rw [if_pos h2]
          constructor
          · intro _
            exact ⟨e, List.mem_cons_self e rest, h1', h2.1, h2.2⟩
          · intro _
            rfl
        · rw [if_neg h2]
          cases hrest : parsePriorityEntries parseImpl rest with
          | ok l =>
            simp only [hrest]
            constructor
            · intro h
              exact absurd h (by simp)
            · rintro ⟨x, hx, hp⟩
              rcases List.mem_cons.mp hx with rfl | hx'
              · exact absurd ⟨hp.2.1, hp.2.2⟩ h2
              · have hcon := ih.mpr ⟨x, hx', hp⟩
                rw [hrest] at hcon
                exact absurd hcon (by simp)
          | error err =>
            cases err
            simp only [hrest]
            constructor
            · intro _
              rcases ih.mp hrest with ⟨x, hx, hp⟩
              exact ⟨x, List.mem_cons_of_mem e hx, hp⟩
            · intro _
              trivial

theorem C7_primitivesPriority_parsing_witness :
    parsePriorityEntries
        (fun s => if s = "cpu:ref" then impl_desc_type.ref else impl_desc_type.unknown)
        ["gpu:x", "cpu:ref"]
      = parsePriorityEntries
        (fun s => if s = "cpu:ref" then impl_desc_type.ref else impl_desc_type.unknown)
        ["cpu:ref"]
    ∧ parsePriorityEntries
        (fun s => if s = "cpu:ref" then impl_desc_type.ref else impl_desc_type.unknown)
        ["cpu:bogus"] = Except.error () := by
  refine ⟨?_, ?_⟩
  · exact (C7_primitivesPriority_parsing _).1 [] ["cpu:ref"] "gpu:x" (by decide)
  · exact ((C7_primitivesPriority_parsing _).2 ["cpu:bogus"]).mpr
      ⟨"cpu:bogus", by simp, by decide, by simp [impl_desc_type.unknown], by simp⟩

/-! ## Theorems for C2 -/

theorem removeFirstMatch_unchanged_or_deletes_one
    (edges : List (Nat × EdgeRec)) (p c : Nat) (l : List Nat) :
    removeFirstMatch edges p c l = l
    ∨ ∃ a x b, l = a ++ x :: b ∧ removeFirstMatch edges p c l = a ++ b := by
  induction l with
  | nil => exact Or.inl rfl
  | cons x rest ih =>
    by_cases h : edgeMatches edges p c x = true
    · exact Or.inr ⟨[], x, rest, rfl, by simp [removeFirstMatch, h]⟩
    · have hx : removeFirstMatch edges p c (x :: rest)
          = x :: removeFirstMatch edges p c rest := by
        simp [removeFirstMatch, h]
      rcases ih with heq | ⟨a, y, b, hab, hres⟩
      · exact Or.inl (by rw [hx, heq])
      · exact Or.inr ⟨x :: a, y, b, by rw [hab, List.cons_append],
          by rw [hx, hres, List.cons_append]⟩

theorem removeFirstMatch_removes_unique
    (edges : List (Nat × EdgeRec)) (p c eid : Nat) (l : List Nat)
    (hself : edgeMatches edges p c eid = true)
    (hcount : l.count eid = 1)
    (hother : ∀ x ∈ l, x ≠ eid → edgeMatches edges p c x = false) :
    eid ∉ removeFirstMatch edges p c l := by
  induction l with
  | nil => simp [removeFirstMatch]
  | cons x rest ih =>
    by_cases h : edgeMatches edges p c x = true
    · have hxe : x = eid := by
        by_contra hne
        exact absurd h (by simp [hother x (List.mem_cons_self x rest) hne])
      subst hxe
      have : rest.count x = 0 := by
        have := hcount
        rw [List.count_cons_self] at this
        omega
      simp only [removeFirstMatch, h, if_true]
      exact List.count_eq_zero.mp this
    · have hne : x ≠ eid := fun he => absurd (he ▸ hself) h
      simp only [removeFirstMatch, h, if_false]
      intro hmem
      rcases List.mem_cons.mp hmem with he | hmem'
      · exact hne he.symm
      · have hcount' : rest.count eid = 1 := by
          have := hcount
          rw [List.count_cons_of_ne (by simpa using Ne.symm hne)] at this
          exact this
        exact absurd hmem'
          (ih hcount' (fun y hy hyne => hother y (List.mem_cons_of_mem x hy) hyne))

/-- C2 as stated is false: with two live edges 1 and 2 that both connect
parent node 10 to child node 20 (on different ports), `removeEdge` on
edge 2 erases the earlier matching entry (edge 1) from both endpoint
lists, so edge 2 still appears in both — the claim says it appears in
neither. -/
theorem C2_claim_counterexample :
    edgeListOf
      (removeEdge
        ⟨[(1, ⟨10, 20, 0, 0⟩), (2, ⟨10, 20, 1, 1⟩)], [(10, [1, 2])], [(20, [1, 2])]⟩
        2).parentEdges 20 = [2]
    ∧ edgeListOf
      (removeEdge
        ⟨[(1, ⟨10, 20, 0, 0⟩), (2, ⟨10, 20, 1, 1⟩)], [(10, [1, 2])], [(20, [1, 2])]⟩
        2).childEdges 10 = [2] := by
  constructor <;> rfl

/-- C2 amended: after `addEdge(e)` on a live edge, `e` appears in the
parent's `childEdges` and in the child's `parentEdges`.  `removeEdge(e)`
removes at most one entry from each endpoint list (each list is unchanged
or has exactly one entry deleted); the entry removed is the first one that
locks to a live edge with the same (parent, child) pair as `e`, so when `e`
occurs once and no other entry of a list matches that pair — in particular
when `e` is the only edge between the pair — `e` itself is removed from
that list.  Both operations are no-ops on an expired edge. -/
theorem C2_edge_linkage_amended (g : EdgeGraph) (eid : Nat) :
    (∀ r, alookup g.edges eid = some r →
      eid ∈ edgeListOf (addEdge g eid).childEdges r.parent
      ∧ eid ∈ edgeListOf (addEdge g eid).parentEdges r.child)
    ∧ (∀ r, alookup g.edges eid = some r →
      (edgeListOf (removeEdge g eid).parentEdges r.child
          = edgeListOf g.parentEdges r.child
        ∨ ∃ a x b, edgeListOf g.parentEdges r.child = a ++ x :: b
          ∧ edgeListOf (removeEdge g eid).parentEdges r.child = a ++ b)
      ∧ (edgeListOf (removeEdge g eid).childEdges r.parent
          = edgeListOf g.childEdges r.parent
        ∨ ∃ a x b, edgeListOf g.childEdges r.parent = a ++ x :: b
          ∧ edgeListOf (removeEdge g eid).childEdges r.parent = a ++ b))
    ∧ (∀ r, alookup g.edges eid = some r →
      ((edgeListOf g.parentEdges r.child).count eid = 1 →
        (∀ x ∈ edgeListOf g.parentEdges r.child, x ≠ eid →
          edgeMatches g.edges r.parent r.child x = false) →
        eid ∉ edgeListOf (removeEdge g eid).parentEdges r.child)
      ∧ ((edgeListOf g.childEdges r.parent).count eid = 1 →
        (∀ x ∈ edgeListOf g.childEdges r.parent, x ≠ eid →
          edgeMatches g.edges r.parent r.child x = false) →
        eid ∉ edgeListOf (removeEdge g eid).childEdges r.parent))
    ∧ (alookup g.edges eid = none → addEdge g eid = g ∧ removeEdge g eid = g) := by
  have hself : ∀ r, alookup g.edges eid = some r →
      edgeMatches g.edges r.parent r.child eid = true := by
    intro r hr
    simp [edgeMatches, hr]
  refine ⟨?_, ?_, ?_, ?_⟩
  · intro r hr
    constructor
    · rw [addEdge, hr]
      simp only [edgeListOf, alookup_setA_self, Option.getD_some]
      exact List.mem_append.mpr (Or.inr (List.mem_singleton.mpr rfl))
    · rw [addEdge, hr]
      simp only [edgeListOf, alookup_setA_self, Option.getD_some]
      exact List.mem_append.mpr (Or.inr (List.mem_singleton.mpr rfl))
  · intro r hr
    constructor
    · rw [removeEdge, hr]
      simp only [edgeListOf, alookup_setA_self, Option.getD_some]
      exact removeFirstMatch_unchanged_or_deletes_one g.edges r.parent r.child _
    · rw [removeEdge, hr]
      simp only [edgeListOf, alookup_setA_self, Option.getD_some]
      exact removeFirstMatch_unchanged_or_deletes_one g.edges r.parent r.child _
  · intro r hr
    constructor
    · intro hcount hother
      rw [removeEdge, hr]
      simp only [edgeListOf, alookup_setA_self, Option.getD_some]
      exact removeFirstMatch_removes_unique g.edges r.parent r.child eid _
        (hself r hr) hcount hother
    · intro hcount hother
      rw [removeEdge, hr]
      simp only [edgeListOf, alookup_setA_self, Option.getD_some]
      exact removeFirstMatch_removes_unique g.edges r.parent r.child eid _
        (hself r hr) hcount hother
  · intro hnone
    constructor
    · rw [addEdge, hnone]
    · rw [removeEdge, hnone]

theorem C2_edge_linkage_amended_witness :
    (5 ∈ edgeListOf (addEdge ⟨[(5, ⟨1, 2, 0, 0⟩)], [], []⟩ 5).childEdges 1
      ∧ 5 ∈ edgeListOf (addEdge ⟨[(5, ⟨1, 2, 0, 0⟩)], [], []⟩ 5).parentEdges 2)
    ∧ 5 ∉ edgeListOf
        (removeEdge ⟨[(5, ⟨1, 2, 0, 0⟩)], [(1, [5])], [(2, [5])]⟩ 5).parentEdges 2 := by
  constructor
  · exact (C2_edge_linkage_amended ⟨[(5, ⟨1, 2, 0, 0⟩)], [], []⟩ 5).1 ⟨1, 2, 0, 0⟩ rfl
  · exact ((C2_edge_linkage_amended ⟨[(5, ⟨1, 2, 0, 0⟩)], [(1, [5])], [(2, [5])]⟩ 5).2.2.1
      ⟨1, 2, 0, 0⟩ rfl).1 (by decide) (by decide)

/-! ## Dynamic batch: `batchToProcess` / `getMaxBatch` /
`setDynamicBatchLim` (source lines 1064-1107)

DNNL argument-role ids are distinct constants; the memory descriptor of a
bound argument is reduced to its `dims` and `padded_dims` arrays, the only
fields the embedded code touches. -/

structure MemArg where
  dims : List Int
  paddedDims : List Int
deriving DecidableEq

structure BatchNode where
  inDims : List (List Int)
  outDims : List (List Int)
  dynBatchLim : Int
  primArgs : List (Nat × MemArg)
deriving DecidableEq

def DNNL_ARG_SRC : Nat := 1
def DNNL_ARG_DST : Nat := 17
def DNNL_ARG_DIFF_SRC : Nat := 129
def DNNL_ARG_DIFF_DST : Nat := 145

/-- `MKLDNNNode::getMaxBatch` (source lines 1068-1083). -/
def getMaxBatch (nd : BatchNode) : Int :=
  match nd.inDims with
  | d0 :: _ => if d0.length ≠ 0 then d0.headD 0 else 1
  | [] =>
    match nd.outDims with
    | d0 :: _ =>
      if d0.length ≠ 0 then (if d0.length ≠ 0 then d0.headD 0 else 1) else 0
    | [] => 0

/-- `MKLDNNNode::batchToProcess` (source lines 1064-1066). -/
def batchToProcess (nd : BatchNode) : Int :=
  if nd.dynBatchLim = 0 then getMaxBatch nd
  else min (getMaxBatch nd) nd.dynBatchLim

/-- Overwrite the leading dimension (`dims[0] = newBatch`). -/
def setHead (l : List Int) (v : Int) : List Int :=
  match l with
  | [] => []
  | _ :: t => v :: t

/-- The `setDynamicBatch` lambda of `setDynamicBatchLim`: patch the leading
dimension of the bound argument with the given role, if present. -/
def setDynamicBatch (args : List (Nat × MemArg)) (argType : Nat) (newBatch : Int) :
    List (Nat × MemArg) :=
  match alookup args argType with
  | none => args
  | some m => setA args argType ⟨setHead m.dims newBatch, setHead m.paddedDims newBatch⟩

/-- `MKLDNNNode::setDynamicBatchLim` (source lines 1085-1107). -/
def setDynamicBatchLim (nd : BatchNode) (lim : Int) : BatchNode :=
  let nd1 : BatchNode := { nd with dynBatchLim := lim }
  if nd1.primArgs = [] then nd1
  else
    { nd1 with primArgs :=
        setDynamicBatch (setDynamicBatch (setDynamicBatch (setDynamicBatch nd1.primArgs
          DNNL_ARG_SRC (batchToProcess nd1)) DNNL_ARG_DST (batchToProcess nd1))
          DNNL_ARG_DIFF_SRC (batchToProcess nd1)) DNNL_ARG_DIFF_DST (batchToProcess nd1) }

theorem alookup_setDynamicBatch_self (args : List (Nat × MemArg)) (role : Nat) (nb : Int) :
    alookup (setDynamicBatch args role nb) role
      = (alookup args role).map (fun m => ⟨setHead m.dims nb, setHead m.paddedDims nb⟩) := by
  cases h : alookup args role with
  | none => simp [setDynamicBatch, h]
  | some m => simp [setDynamicBatch, h, alookup_setA_self]

theorem alookup_setDynamicBatch_ne (args : List (Nat × MemArg)) (role role' : Nat)
    (nb : Int) (h : role' ≠ role) :
    alookup (setDynamicBatch args role nb) role' = alookup args role' := by
  cases hl : alookup args role with
  | none => simp [setDynamicBatch, hl]
  | some m => simp [setDynamicBatch, hl, alookup_setA_ne _ _ _ _ h]

theorem inDims_setDynamicBatchLim (nd : BatchNode) (lim : Int) :
    (setDynamicBatchLim nd lim).inDims = nd.inDims := by
  rw [setDynamicBatchLim]
  by_cases h : nd.primArgs = [] <;> simp [h]

theorem dynBatchLim_setDynamicBatchLim (nd : BatchNode) (lim : Int) :
    (setDynamicBatchLim nd lim).dynBatchLim = lim := by
  rw [setDynamicBatchLim]
  by_cases h : nd.primArgs = [] <;> simp [h]

theorem alookup_role_setDynamicBatchLim (nd : BatchNode) (lim : Int) (role : Nat)
    (hrole : role = DNNL_ARG_SRC ∨ role = DNNL_ARG_DST
      ∨ role = DNNL_ARG_DIFF_SRC ∨ role = DNNL_ARG_DIFF_DST) :
    alookup (setDynamicBatchLim nd lim).primArgs role
      = (alookup nd.primArgs role).map
          (fun m => ⟨setHead m.dims (batchToProcess { nd with dynBatchLim := lim }),
            setHead m.paddedDims (batchToProcess { nd with dynBatchLim := lim })⟩) := by
  by_cases hpa : nd.primArgs = []
  · rw [setDynamicBatchLim]
    simp [hpa, alookup, List.find?]
  · rw [setDynamicBatchLim]
    simp only []
    rw [if_neg (by simpa using hpa)]
    simp only []
    rcases hrole with rfl | rfl | rfl | rfl
    · rw [alookup_setDynamicBatch_ne _ DNNL_ARG_DIFF_DST DNNL_ARG_SRC _ (by decide),
        alookup_setDynamicBatch_ne _ DNNL_ARG_DIFF_SRC DNNL_ARG_SRC _ (by decide),
        alookup_setDynamicBatch_ne _ DNNL_ARG_DST DNNL_ARG_SRC _ (by decide),
        alookup_setDynamicBatch_self]
    · rw [alookup_setDynamicBatch_ne _ DNNL_ARG_DIFF_DST DNNL_ARG_DST _ (by decide),
        alookup_setDynamicBatch_ne _ DNNL_ARG_DIFF_SRC DNNL_ARG_DST _ (by decide),
        alookup_setDynamicBatch_self,
        alookup_setDynamicBatch_ne _ DNNL_ARG_SRC DNNL_ARG_DST _ (by decide)]
    · rw [alookup_setDynamicBatch_ne _ DNNL_ARG_DIFF_DST DNNL_ARG_DIFF_SRC _ (by decide),
        alookup_setDynamicBatch_self,
        alookup_setDynamicBatch_ne _ DNNL_ARG_DST DNNL_ARG_DIFF_SRC _ (by decide),
        alookup_setDynamicBatch_ne _ DNNL_ARG_SRC DNNL_ARG_DIFF_SRC _ (by decide)]
    · rw [alookup_setDynamicBatch_self,
        alookup_setDynamicBatch_ne _ DNNL_ARG_DIFF_SRC DNNL_ARG_DIFF_DST _ (by decide),
        alookup_setDynamicBatch_ne _ DNNL_ARG_DST DNNL_ARG_DIFF_DST _ (by decide),
        alookup_setDynamicBatch_ne _ DNNL_ARG_SRC DNNL_ARG_DIFF_DST _ (by decide)]

theorem setHead_headD (l : List Int) (v : Int) (h : l ≠ []) :
    (setHead l v).headD 0 = v := by
  cases l with
  | nil => exact absurd rfl h
  | cons a t => rfl

theorem setHead_ne_nil (l : List Int) (v : Int) (h : l ≠ []) : setHead l v ≠ [] := by
  cases l with
  | nil => exact absurd rfl h
  | cons a t => simp [setHead]

/-- C6: with a nonempty leading input shape, `batchToProcess` is the natural
batch (leading dimension of input shape 0) when no limit is set, else the
minimum of limit and natural batch; `setDynamicBatchLim(B)` sets the leading
dimension of every present bound argument of role SRC/DST/DIFF_SRC/DIFF_DST
to that effective batch; with `0 < B <` natural batch the leading dimension
becomes `B`, and a subsequent `setDynamicBatchLim(0)` restores the natural
batch. -/
theorem C6_dynamic_batch (nd : BatchNode) (d0 : List Int) (rest : List (List Int))
    (B : Int) (role : Nat) (m0 : MemArg)
    (hin : nd.inDims = d0 :: rest) (hd0 : d0 ≠ [])
    (hrole : role = DNNL_ARG_SRC ∨ role = DNNL_ARG_DST
      ∨ role = DNNL_ARG_DIFF_SRC ∨ role = DNNL_ARG_DIFF_DST) :
    (batchToProcess nd
      = if nd.dynBatchLim = 0 then d0.headD 0 else min (d0.headD 0) nd.dynBatchLim)
    ∧ (alookup nd.primArgs role = some m0 →
        (alookup (setDynamicBatchLim nd B).primArgs role).map (fun m => m.dims)
          = some (setHead m0.dims (batchToProcess { nd with dynBatchLim := B }))
        ∧ (alookup (setDynamicBatchLim nd B).primArgs role).map (fun m => m.paddedDims)
          = some (setHead m0.paddedDims (batchToProcess { nd with dynBatchLim := B })))
    ∧ (0 < B → B < d0.headD 0 → alookup nd.primArgs role = some m0 → m0.dims ≠ [] →
        ((alookup (setDynamicBatchLim nd B).primArgs role).map
            (fun m => m.dims.headD 0) = some B)
        ∧ ((alookup (setDynamicBatchLim (setDynamicBatchLim nd B) 0).primArgs role).map
            (fun m => m.dims.headD 0) = some (d0.headD 0))) := by
  have hlen : d0.length ≠ 0 := by simpa [List.length_eq_zero] using hd0
  have hmax : getMaxBatch nd = d0.headD 0 := by simp [getMaxBatch, hin, hlen]
  have hmaxB : ∀ lim : Int, getMaxBatch { nd with dynBatchLim := lim } = d0.headD 0 := by
    intro lim
    simp [getMaxBatch, hin, hlen]
  refine ⟨?_, ?_, ?_⟩
  · rw [batchToProcess, hmax]
  · intro hm
    rw [alookup_role_setDynamicBatchLim nd B role hrole, hm]
    constructor <;> rfl
  · intro hB hBlt hm hdm
    obtain ⟨a, t, rfl⟩ : ∃ a t, d0 = a :: t := by
      cases d0 with
      | nil => exact absurd rfl hd0
      | cons a t => exact ⟨a, t, rfl⟩
    have hBne : B ≠ 0 := by omega
    have hBle : B ≤ a := le_of_lt (by simpa using hBlt)
    have hbB : batchToProcess { nd with dynBatchLim := B } = B := by
      have hminr : min a B = B := min_eq_right hBle
      simp only [batchToProcess, hmaxB]
      simp [hBne, hminr]
    constructor
    · rw [alookup_role_setDynamicBatchLim nd B role hrole, hm]
      simp only [Option.map_some']
      rw [hbB, setHead_headD _ _ hdm]
    · rw [alookup_role_setDynamicBatchLim (setDynamicBatchLim nd B) 0 role hrole]
      rw [alookup_role_setDynamicBatchLim nd B role hrole, hm]
      have hb0 : batchToProcess { setDynamicBatchLim nd B with dynBatchLim := (0 : Int) }
          = a := by
        simp [batchToProcess, getMaxBatch, inDims_setDynamicBatchLim, hin]
      simp only [Option.map_some']
      rw [hb0, setHead_headD _ _ (setHead_ne_nil _ _ hdm)]
      rfl

theorem C6_dynamic_batch_witness :
    batchToProcess ⟨[[4, 3]], [], 0, [(DNNL_ARG_SRC, ⟨[4, 3], [4, 3]⟩)]⟩ = 4
    ∧ (alookup (setDynamicBatchLim
          ⟨[[4, 3]], [], 0, [(DNNL_ARG_SRC, ⟨[4, 3], [4, 3]⟩)]⟩ 2).primArgs
        DNNL_ARG_SRC).map (fun m => m.dims.headD 0) = some 2
    ∧ (alookup (setDynamicBatchLim (setDynamicBatchLim
          ⟨[[4, 3]], [], 0, [(DNNL_ARG_SRC, ⟨[4, 3], [4, 3]⟩)]⟩ 2) 0).primArgs
        DNNL_ARG_SRC).map (fun m => m.dims.headD 0) = some 4 := by
  have h := C6_dynamic_batch ⟨[[4, 3]], [], 0, [(DNNL_ARG_SRC, ⟨[4, 3], [4, 3]⟩)]⟩
    [4, 3] [] 2 DNNL_ARG_SRC ⟨[4, 3], [4, 3]⟩ rfl (by simp) (Or.inl rfl)
  have h3 := h.2.2 (by omega) (by norm_num) rfl (by simp)
  exact ⟨by rw [h.1]; rfl, h3.1, h3.2⟩

/-! ## `filterSupportedPrimitiveDescriptors` (source lines 545-581)

Port layouts and memory-format hints are abstract; the structural
comparison `areCompatible` (built on `PartialBlkDesc::extractFrom`, outside
this translation unit) is a function parameter `compat layout fmt`. -/

structure PrimDesc5 where
  inConfs : List Nat
  outConfs : List Nat
deriving DecidableEq

/-- A descriptor is suitable when every hinted input and output port layout
is structurally compatible with its hint (the two `&=` loops). -/
def descSuitable (compat : Nat → Nat → Bool) (inF outF : List Nat) (d : PrimDesc5) : Bool :=
  ((inF.zip d.inConfs).all fun q => compat q.2 q.1)
    && ((outF.zip d.outConfs).all fun q => compat q.2 q.1)

/-- The erase-or-keep scan over `supportedPrimitiveDescriptors`; a
descriptor with fewer ports than hints throws. -/
def filterLoop (compat : Nat → Nat → Bool) (inF outF : List Nat) :
    List PrimDesc5 → Except Unit (List PrimDesc5)
  | [] => Except.ok []
  | d :: rest =>
    if d.inConfs.length < inF.length ∨ d.outConfs.length < outF.length then
      Except.error ()
    else if descSuitable compat inF outF d then
      match filterLoop compat inF outF rest with
      | Except.ok l => Except.ok (d :: l)
      | Except.error e => Except.error e
    else filterLoop compat inF outF rest

/-- `MKLDNNNode::filterSupportedPrimitiveDescriptors`: no-op without hints,
else run the scan. -/
def filterSupportedPrimitiveDescriptors (compat : Nat → Nat → Bool)
    (inF outF : List Nat) (spds : List PrimDesc5) : Except Unit (List PrimDesc5) :=
  if inF = [] ∧ outF = [] then Except.ok spds
  else filterLoop compat inF outF spds

theorem filterLoop_error_iff (compat : Nat → Nat → Bool) (inF outF : List Nat)
    (spds : List PrimDesc5) :
    filterLoop compat inF outF spds = Except.error ()
      ↔ ∃ d ∈ spds, d.inConfs.length < inF.length ∨ d.outConfs.length < outF.length := by
  induction spds with
  | nil => simp [filterLoop]
  | cons d rest ih =>
    simp only [filterLoop]
    by_cases h1 : d.inConfs.length < inF.length ∨ d.outConfs.length < outF.length
    · rw [if_pos h1]
      constructor
      · intro _
        exact ⟨d, List.mem_cons_self d rest, h1⟩
      · intro _
        rfl
    · rw [if_neg h1]
      by_cases h2 : descSuitable compat inF outF d = true
      · rw [if_pos h2]
        cases hrest : filterLoop compat inF outF rest with
        | ok l =>
          simp only [hrest]
          constructor
          · intro h
            exact absurd h (by simp)
          · rintro ⟨x, hx, hp⟩
            rcases List.mem_cons.mp hx with rfl | hx'
            · exact absurd hp h1
            · have hcon := ih.mpr ⟨x, hx', hp⟩
              rw [hrest] at hcon
              exact absurd hcon (by simp)
        | error err =>
          cases err
          simp only [hrest]
          constructor
          · intro _
            rcases ih.mp hrest with ⟨x, hx, hp⟩
            exact ⟨x, List.mem_cons_of_mem d hx, hp⟩
          · intro _
            trivial
      · rw [if_neg h2, ih]
        constructor
        · rintro ⟨x, hx, hp⟩
          exact ⟨x, List.mem_cons_of_mem d hx, hp⟩
        · rintro ⟨x, hx, hp⟩
          rcases List.mem_cons.mp hx with rfl | hx'
          · exact absurd hp h1
          · exact ⟨x, hx', hp⟩

theorem filterLoop_ok (compat : Nat → Nat → Bool) (inF outF : List Nat)
    (spds : List PrimDesc5)
    (hall : ∀ d ∈ spds, inF.length ≤ d.inConfs.length ∧ outF.length ≤ d.outConfs.length) :
    filterLoop compat inF outF spds
      = Except.ok (spds.filter (descSuitable compat inF outF)) := by
  induction spds with
  | nil => simp [filterLoop]
  | cons d rest ih =>
    have hd := hall d (List.mem_cons_self d rest)
    have hrest := ih (fun x hx => hall x (List.mem_cons_of_mem d hx))
    simp only [filterLoop]
    rw [if_neg (by omega)]
    by_cases h2 : descSuitable compat inF outF d = true
    · rw [if_pos h2, hrest, List.filter_cons_of_pos h2]
    · rw [if_neg h2, hrest, List.filter_cons_of_neg (by simpa using h2)]

/-- C5: with no hints the supported-descriptor list is unchanged; with
hints, the routine errors exactly when some descriptor has fewer input
ports than input hints or fewer output ports than output hints, and when no
descriptor does, it keeps exactly the descriptors all of whose hinted port
layouts structurally match their hints. -/
theorem C5_filterSupportedPrimitiveDescriptors (compat : Nat → Nat → Bool)
    (inF outF : List Nat) (spds : List PrimDesc5) :
    (filterSupportedPrimitiveDescriptors compat [] [] spds = Except.ok spds)
    ∧ (filterSupportedPrimitiveDescriptors compat inF outF spds = Except.error ()
        ↔ ¬(inF = [] ∧ outF = [])
          ∧ ∃ d ∈ spds, d.inConfs.length < inF.length ∨ d.outConfs.length < outF.length)
    ∧ ((∀ d ∈ spds, inF.length ≤ d.inConfs.length ∧ outF.length ≤ d.outConfs.length) →
        filterSupportedPrimitiveDescriptors compat inF outF spds
          = Except.ok (spds.filter (descSuitable compat inF outF))) := by
  refine ⟨by simp [filterSupportedPrimitiveDescriptors], ?_, ?_⟩
  · by_cases hemp : inF = [] ∧ outF = []
    · rw [filterSupportedPrimitiveDescriptors, if_pos hemp]
      constructor
      · intro h
        exact absurd h (by simp)
      · rintro ⟨hne, _⟩
        exact absurd hemp hne
    · rw [filterSupportedPrimitiveDescriptors, if_neg hemp, filterLoop_error_iff]
      constructor
      · intro h
        exact ⟨hemp, h⟩
      · rintro ⟨_, h⟩
        exact h
  · intro hall
    by_cases hemp : inF = [] ∧ outF = []
    · rw [filterSupportedPrimitiveDescriptors, if_pos hemp]
      obtain ⟨rfl, rfl⟩ := hemp
      have : spds.filter (descSuitable compat [] []) = spds :=
        List.filter_eq_self.mpr (fun d _ => by simp [descSuitable])
      rw [this]
    · rw [filterSupportedPrimitiveDescriptors, if_neg hemp]
      exact filterLoop_ok compat inF outF spds hall

theorem C5_filterSupportedPrimitiveDescriptors_witness :
    filterSupportedPrimitiveDescriptors (fun l f => l == f) [7] []
        [⟨[7], [9]⟩, ⟨[8], [9]⟩] = Except.ok [⟨[7], [9]⟩]
    ∧ filterSupportedPrimitiveDescriptors (fun l f => l == f) [7, 7] []
        [⟨[7], [9]⟩] = Except.error () := by
  constructor
  · exact (C5_filterSupportedPrimitiveDescriptors (fun l f => l == f) [7] []
      [⟨[7], [9]⟩, ⟨[8], [9]⟩]).2.2 (by decide)
  · exact ((C5_filterSupportedPrimitiveDescriptors (fun l f => l == f) [7, 7] []
      [⟨[7], [9]⟩]).2.1).mpr ⟨by simp, ⟨[7], [9]⟩, by simp, by simp⟩

/-! ## Weight-cache keys and `prepareMemory` (source lines 727-777)

`MKLDNNWeightsSharing::findOrCreate` is declared outside this translation
unit; it is modelled from the spec.  Buffers are identified by allocation
ids handed out by a fresh-id counter; the hash function of the cache is a
parameter. -/

/-- Decimal rendering of a natural (the model of `std::to_string`). -/
def natToString (n : Nat) : String :=
  if n = 0 then "0" else String.mk (((Nat.digits 10 n).map Nat.digitChar).reverse)

/-- The weight-cache key of `prepareMemory` (source lines 766-768):
node name, blob index, byte size and content hash, joined by "_". -/
def mkWeightKey (name : String) (i size hash : Nat) : String :=
  name ++ "_" ++ natToString i ++ "_" ++ natToString size ++ "_" ++ natToString hash

def slookup {α : Type} (l : List (String × α)) (k : String) : Option α :=
  (l.find? (fun p => p.1 == k)).map Prod.snd

structure WeightCache where
  entries : List (String × Nat)
  nextId : Nat
deriving DecidableEq

/-- Modelled from the spec: `WeightCache::findOrCreate(key, factory)`
(declared in `mkldnn_weights_cache.hpp`, not part of the given sources)
"returns existing shared buffer for `key` if present, else invokes
`factory` to build one, stores it, returns it"; the factory's fresh buffer
is modelled by the next allocation id. -/
def findOrCreate (c : WeightCache) (key : String) : Nat × WeightCache :=
  match slookup c.entries key with
  | some b => (b, c)
  | none => (c.nextId, ⟨c.entries ++ [(key, c.nextId)], c.nextId + 1⟩)

structure Blob where
  bytes : List Nat
deriving DecidableEq

/-- The internal-blob loop of `MKLDNNNode::prepareMemory` restricted to the
cache interaction: for blob `i`, hash its raw bytes, build the key from
(name, i, byte size, hash) and fetch the buffer through `findOrCreate`. -/
def prepareMemoryLoop (hashFn : List Nat → Nat) (name : String) :
    List Blob → Nat → WeightCache → List Nat × WeightCache
  | [], _, c => ([], c)
  | b :: rest, i, c =>
    let kc := findOrCreate c (mkWeightKey name i b.bytes.length (hashFn b.bytes))
    let lc := prepareMemoryLoop hashFn name rest (i + 1) kc.2
    (kc.1 :: lc.1, lc.2)

def prepareMemory (hashFn : List Nat → Nat) (name : String) (blobs : List Blob)
    (c : WeightCache) : List Nat × WeightCache :=
  prepareMemoryLoop hashFn name blobs 0 c

/-- Cache sanity: every stored id is below the fresh counter and ids are
pairwise distinct (true of the empty cache and preserved by
`findOrCreate`). -/
def CacheWF (c : WeightCache) : Prop :=
  (∀ p ∈ c.entries, p.2 < c.nextId) ∧ c.entries.Pairwise (fun p q => p.2 ≠ q.2)

theorem digitChar_inj_lt :
    ∀ a, a < 10 → ∀ b, b < 10 → Nat.digitChar a = Nat.digitChar b → a = b := by
  decide

theorem map_digitChar_inj : ∀ l1 l2 : List Nat,
    (∀ x ∈ l1, x < 10) → (∀ x ∈ l2, x < 10) →
    l1.map Nat.digitChar = l2.map Nat.digitChar → l1 = l2 := by
  intro l1
  induction l1 with
  | nil =>
    intro l2 _ _ h
    cases l2 with
    | nil => rfl
    | cons b t => simp at h
  | cons a t ih =>
    intro l2 h1 h2 h
    cases l2 with
    | nil => simp at h
    | cons b t2 =>
      simp only [List.map_cons, List.cons.injEq] at h
      have hab := digitChar_inj_lt a (h1 a (by simp)) b (h2 b (by simp)) h.1
      have ht := ih t2 (fun x hx => h1 x (by simp [hx]))
        (fun x hx => h2 x (by simp [hx])) h.2
      rw [hab, ht]

theorem natToString_inj (m n : Nat) (h : natToString m = natToString n) : m = n := by
  have hlt : ∀ k : Nat, ∀ x ∈ Nat.digits 10 k, x < 10 :=
    fun k x hx => Nat.digits_lt_base (by norm_num) hx
  by_cases hm : m = 0 <;> by_cases hn : n = 0
  · rw [hm, hn]
  · exfalso
    rw [natToString, if_pos hm, natToString, if_neg hn] at h
    have hd : ['0'] = ((Nat.digits 10 n).map Nat.digitChar).reverse :=
      congrArg String.data h
    have hd2 : (Nat.digits 10 n).map Nat.digitChar = ['0'] := by
      rw [← List.reverse_reverse (List.map _ _), ← hd]
      rfl
    have h0 : Nat.digits 10 n = [0] := by
      have : Nat.digits 10 n = [0] ∨ False := by
        have := map_digitChar_inj (Nat.digits 10 n) [0] (hlt n)
          (by intro x hx; simp at hx; omega) (by rw [hd2]; rfl)
        exact Or.inl this
      exact this.resolve_right (fun f => f)
    have := Nat.ofDigits_digits 10 n
    rw [h0] at this
    simp [Nat.ofDigits] at this
    exact hn this.symm
  · exfalso
    rw [natToString, if_neg hm, natToString, if_pos hn] at h
    have hd : ((Nat.digits 10 m).map Nat.digitChar).reverse = ['0'] :=
      congrArg String.data h
    have hd2 : (Nat.digits 10 m).map Nat.digitChar = ['0'] := by
      rw [← List.reverse_reverse (List.map _ _), hd]
      rfl
    have h0 : Nat.digits 10 m = [0] :=
      map_digitChar_inj (Nat.digits 10 m) [0] (hlt m)
        (by intro x hx; simp at hx; omega) (by rw [hd2]; rfl)
    have := Nat.ofDigits_digits 10 m
    rw [h0] at this
    simp [Nat.ofDigits] at this
    exact hm this.symm
  · rw [natToString, if_neg hm, natToString, if_neg hn] at h
    have hd : ((Nat.digits 10 m).map Nat.digitChar).reverse
        = ((Nat.digits 10 n).map Nat.digitChar).reverse :=
      congrArg String.data h
    have hd2 := List.reverse_injective hd
    have hdig := map_digitChar_inj _ _ (hlt m) (hlt n) hd2
    exact Nat.digits.injective 10 hdig

theorem slookup_mem {α : Type} (l : List (String × α)) (k : String) (v : α)
    (h : slookup l k = some v) : ∃ p ∈ l, p.1 = k ∧ p.2 = v := by
  rw [slookup] at h
  cases hf : l.find? (fun p => p.1 == k) with
  | none => rw [hf] at h; simp at h
  | some p =>
    rw [hf] at h
    refine ⟨p, List.mem_of_find?_eq_some hf, ?_, ?_⟩
    · have := List.find?_some hf
      simpa using this
    · simpa using h

theorem slookup_append_self_none {α : Type} (l : List (String × α)) (k : String) (v : α)
    (h : slookup l k = none) : slookup (l ++ [(k, v)]) k = some v := by
  induction l with
  | nil => simp [slookup, List.find?]
  | cons p t ih =>
    by_cases hp : p.1 = k
    · rw [slookup] at h
      simp [List.find?, hp] at h
    · have ht : slookup t k = none := by
        rw [slookup] at h ⊢
        simp only [List.find?, show (p.1 == k) = false by simpa using hp] at h
        exact h
      rw [slookup]
      simp only [List.cons_append, List.find?, show (p.1 == k) = false by simpa using hp]
      exact ih ht

theorem slookup_append_ne {α : Type} (l : List (String × α)) (k k' : String) (v : α)
    (hne : k ≠ k') : slookup (l ++ [(k, v)]) k' = slookup l k' := by
  induction l with
  | nil => simp [slookup, List.find?, show (k == k') = false by simpa using hne]
  | cons p t ih =>
    by_cases hp : p.1 = k'
    · rw [slookup, slookup]
      simp [List.cons_append, List.find?, hp]
    · rw [slookup, slookup]
      simp only [List.cons_append, List.find?, show (p.1 == k') = false by simpa using hp]
      exact ih

theorem findOrCreate_WF (c : WeightCache) (k : String) (h : CacheWF c) :
    CacheWF (findOrCreate c k).2 := by
  cases hl : slookup c.entries k with
  | some b => simpa [findOrCreate, hl] using h
  | none =>
    simp only [findOrCreate, hl]
    constructor
    · intro p hp
      rcases List.mem_append.mp hp with hp' | hp'
      · exact Nat.lt_succ_of_lt (h.1 p hp')
      · simp only [List.mem_singleton] at hp'
        subst hp'
        exact Nat.lt_succ_self _
    · rw [List.pairwise_append]
      refine ⟨h.2, List.pairwise_singleton _ _, ?_⟩
      intro p hp q hq
      simp only [List.mem_singleton] at hq
      subst hq
      exact Nat.ne_of_lt (h.1 p hp)

theorem findOrCreate_stable (c : WeightCache) (k : String) :
    findOrCreate (findOrCreate c k).2 k = ((findOrCreate c k).1, (findOrCreate c k).2) := by
  cases hl : slookup c.entries k with
  | some b => simp [findOrCreate, hl]
  | none =>
    simp only [findOrCreate, hl, slookup_append_self_none _ _ _ hl]

theorem findOrCreate_distinct (c : WeightCache) (k k' : String)
    (hwf : CacheWF c) (hne : k ≠ k') :
    (findOrCreate (findOrCreate c k).2 k').1 ≠ (findOrCreate c k).1 := by
  cases h1 : slookup c.entries k with
  | some b1 =>
    obtain ⟨p1, hp1m, hp1k, hp1v⟩ := slookup_mem _ _ _ h1
    cases h2 : slookup c.entries k' with
    | some b2 =>
      obtain ⟨p2, hp2m, hp2k, hp2v⟩ := slookup_mem _ _ _ h2
      have hpne : p1 ≠ p2 := fun e => hne (by rw [← hp1k, e, hp2k])
      have hvne : p1.2 ≠ p2.2 :=
        List.Pairwise.forall (fun p q hpq => Ne.symm hpq) hwf.2 hp1m hp2m hpne
      simp only [findOrCreate, h1, h2]
      rw [← hp1v, ← hp2v]
      exact Ne.symm hvne
    | none =>
      have hb1 : b1 < c.nextId := hp1v ▸ hwf.1 p1 hp1m
      simp only [findOrCreate, h1, h2]
      omega
  | none =>
    have hpass : slookup (c.entries ++ [(k, c.nextId)]) k' = slookup c.entries k' :=
      slookup_append_ne _ _ _ _ hne
    cases h2 : slookup c.entries k' with
    | some b2 =>
      obtain ⟨p2, hp2m, hp2k, hp2v⟩ := slookup_mem _ _ _ h2
      have hb2 : b2 < c.nextId := hp2v ▸ hwf.1 p2 hp2m
      simp only [findOrCreate, h1, hpass, h2]
      omega
    | none =>
      simp only [findOrCreate, h1, hpass, h2]
      omega

theorem string_append_cancel_left (p s1 s2 : String) (h : p ++ s1 = p ++ s2) :
    s1 = s2 := by
  have hd : p.data ++ s1.data = p.data ++ s2.data := congrArg String.data h
  have hds := List.append_cancel_left hd
  cases s1
  cases s2
  exact congrArg String.mk hds

theorem mkWeightKey_hash_inj (name : String) (i s h1 h2 : Nat)
    (heq : mkWeightKey name i s h1 = mkWeightKey name i s h2) : h1 = h2 := by
  rw [mkWeightKey, mkWeightKey] at heq
  exact natToString_inj _ _ (string_append_cancel_left _ _ _ heq)

/-- C8: the weight-cache key is built from exactly (node name, blob index,
byte size, content hash); a second `prepareMemory` request whose four key
components coincide returns the very same buffer and leaves the cache
unchanged (first constructs, later reuse), while a request differing in
content hash (same name, index, size) receives a distinct buffer. -/
theorem C8_weight_cache_dedup (hashFn : List Nat → Nat) (name : String)
    (b b' : Blob) (c : WeightCache) :
    (b.bytes.length = b'.bytes.length → hashFn b.bytes = hashFn b'.bytes →
      prepareMemory hashFn name [b'] (prepareMemory hashFn name [b] c).2
        = prepareMemory hashFn name [b] c)
    ∧ (CacheWF c → b.bytes.length = b'.bytes.length → hashFn b.bytes ≠ hashFn b'.bytes →
      (prepareMemory hashFn name [b'] (prepareMemory hashFn name [b] c).2).1
        ≠ (prepareMemory hashFn name [b] c).1) := by
  constructor
  · intro hsz hh
    show prepareMemoryLoop hashFn name [b'] 0 _ = _
    simp only [prepareMemoryLoop, prepareMemory]
    rw [hsz, hh] at *
    rw [findOrCreate_stable]
  · intro hwf hsz hh
    have hkne : mkWeightKey name 0 b.bytes.length (hashFn b.bytes)
        ≠ mkWeightKey name 0 b'.bytes.length (hashFn b'.bytes) := by
      rw [← hsz]
      intro hk
      exact hh (mkWeightKey_hash_inj _ _ _ _ _ hk)
    have hd := findOrCreate_distinct c
      (mkWeightKey name 0 b.bytes.length (hashFn b.bytes))
      (mkWeightKey name 0 b'.bytes.length (hashFn b'.bytes)) hwf hkne
    simp only [prepareMemory, prepareMemoryLoop]
    intro hlist
    simp only [List.cons.injEq] at hlist
    exact hd hlist.1

theorem C8_weight_cache_dedup_witness :
    prepareMemory (fun l => l.foldl (fun a b => a + b) 0) "nd" [⟨[2, 1]⟩]
        (prepareMemory (fun l => l.foldl (fun a b => a + b) 0) "nd" [⟨[1, 2]⟩] ⟨[], 0⟩).2
      = prepareMemory (fun l => l.foldl (fun a b => a + b) 0) "nd" [⟨[1, 2]⟩] ⟨[], 0⟩
    ∧ (prepareMemory (fun l => l.foldl (fun a b => a + b) 0) "nd" [⟨[5, 1]⟩]
        (prepareMemory (fun l => l.foldl (fun a b => a + b) 0) "nd" [⟨[1, 2]⟩] ⟨[], 0⟩).2).1
      ≠ (prepareMemory (fun l => l.foldl (fun a b => a + b) 0) "nd" [⟨[1, 2]⟩] ⟨[], 0⟩).1 := by
  constructor
  · exact (C8_weight_cache_dedup (fun l => l.foldl (fun a b => a + b) 0) "nd"
      ⟨[1, 2]⟩ ⟨[2, 1]⟩ ⟨[], 0⟩).1 rfl rfl
  · exact (C8_weight_cache_dedup (fun l => l.foldl (fun a b => a + b) 0) "nd"
      ⟨[1, 2]⟩ ⟨[5, 1]⟩ ⟨[], 0⟩).2 ⟨by simp, List.Pairwise.nil⟩ rfl (by decide)

/-! ## `canBeInPlace` (source lines 325-344)

Nodes carry their operator-type tag, their resolved constant
classification (the value `isConstant()` returns; its resolution is the
subject of C4), and their edge-id lists.  Edges carry endpoints and
dimensions.  `getParentEdgeAt`/`getChildEdgeAt` throw on an out-of-range
index or an expired edge, modelled as `Except.error`. -/

structure N3 where
  typ : NodeType
  isConst : Bool
  parentEdges : List Nat
  childEdges : List Nat
deriving DecidableEq

structure E3 where
  parent : Nat
  child : Nat
  dims : List Nat
deriving DecidableEq

structure G3 where
  nodes : List (Nat × N3)
  edges : List (Nat × E3)
deriving DecidableEq

def getNode3 (g : G3) (n : Nat) : Option N3 := alookup g.nodes n

def getEdge3 (g : G3) (e : Nat) : Option E3 := alookup g.edges e

/-- `getParentEdgeAt(i)`: throws past the end or on an expired edge. -/
def getParentEdgeAt3 (g : G3) (nd : N3) (i : Nat) : Except Unit E3 :=
  match nd.parentEdges[i]? with
  | none => Except.error ()
  | some eid =>
    match getEdge3 g eid with
    | none => Except.error ()
    | some e => Except.ok e

/-- The final loop of `canBeInPlace`: every child edge must carry the same
dims as the parent edge (`getChildEdgeAt` throws on an expired edge). -/
def childDimsEqual (g : G3) (dims : List Nat) : List Nat → Except Unit Bool
  | [] => Except.ok true
  | eid :: rest =>
    match getEdge3 g eid with
    | none => Except.error ()
    | some e => if e.dims ≠ dims then Except.ok false else childDimsEqual g dims rest

/-- `MKLDNNNode::canBeInPlace`. -/
def canBeInPlace (g : G3) (nid : Nat) : Except Unit Bool :=
  match getNode3 g nid with
  | none => Except.error ()
  | some nd =>
    if nd.parentEdges.length ≠ 1 then Except.ok false
    else
      match getParentEdgeAt3 g nd 0 with
      | Except.error e => Except.error e
      | Except.ok pe =>
        match getNode3 g pe.parent, getNode3 g pe.child with
        | some parentNd, some childNd =>
          if parentNd.childEdges.length ≠ 1 then Except.ok false
          else if parentNd.isConst ∧ ¬childNd.isConst then Except.ok false
          else if nd.parentEdges.length = 1 ∧ parentNd.typ = NodeType.Reshape then
            match getParentEdgeAt3 g parentNd 0 with
            | Except.error e => Except.error e
            | Except.ok rpe =>
              match getNode3 g rpe.parent with
              | none => Except.error ()
              | some rpn =>
                if rpn.childEdges.length ≠ 1 then Except.ok false
                else childDimsEqual g pe.dims nd.childEdges
          else childDimsEqual g pe.dims nd.childEdges
        | _, _ => Except.error ()

theorem childDimsEqual_ok_true_iff (g : G3) (dims : List Nat) (ces : List Nat)
    (h : ∀ e ∈ ces, ∃ ce, getEdge3 g e = some ce) :
    childDimsEqual g dims ces = Except.ok true
      ↔ ∀ eid ce, eid ∈ ces → getEdge3 g eid = some ce → ce.dims = dims := by
  induction ces with
  | nil => simp [childDimsEqual]
  | cons eid rest ih =>
    obtain ⟨ce, hce⟩ := h eid (List.mem_cons_self eid rest)
    have ihr := ih (fun e he => h e (List.mem_cons_of_mem eid he))
    simp only [childDimsEqual, hce]
    by_cases hd : ce.dims = dims
    · rw [if_neg (by simpa using hd), ihr]
      constructor
      · intro hall e ce' hmem hce'
        rcases List.mem_cons.mp hmem with rfl | hmem'
        · rw [hce] at hce'
          cases hce'
          exact hd
        · exact hall e ce' hmem' hce'
      · intro hall e ce' hmem' hce'
        exact hall e ce' (List.mem_cons_of_mem eid hmem') hce'
    · rw [if_pos (by simpa using hd)]
      constructor
      · intro hfalse
        exact absurd hfalse (by simp)
      · intro hall
        exact absurd (hall eid ce (List.mem_cons_self eid rest) hce) hd

/-- C3: with the graph well-formed around the node (its sole parent edge
and its child edges lock, the parent node resolves, and — when the parent
is a Reshape — the reshape's own first parent edge and grandparent node
resolve), `canBeInPlace` returns false whenever the node does not have
exactly one parent edge, and otherwise returns true iff the parent has
exactly one child edge, it is not the case that the parent is
constant-classified while the node is not, every child edge carries the
parent edge's dims, and — when the parent is a Reshape — the reshape's own
parent has exactly one child edge. -/
theorem C3_canBeInPlace (g : G3) (nid : Nat) (nd : N3)
    (hnd : getNode3 g nid = some nd) :
    (nd.parentEdges.length ≠ 1 → canBeInPlace g nid = Except.ok false)
    ∧ (∀ eid pe pnd,
        nd.parentEdges = [eid] →
        getEdge3 g eid = some pe →
        pe.child = nid →
        getNode3 g pe.parent = some pnd →
        (pnd.typ = NodeType.Reshape → ∃ reid rpe rpn, pnd.parentEdges[0]? = some reid
          ∧ getEdge3 g reid = some rpe ∧ getNode3 g rpe.parent = some rpn) →
        (∀ ceid ∈ nd.childEdges, ∃ ce, getEdge3 g ceid = some ce) →
        (canBeInPlace g nid = Except.ok true ↔
          pnd.childEdges.length = 1
          ∧ ¬(pnd.isConst = true ∧ nd.isConst = false)
          ∧ (∀ ceid ce, ceid ∈ nd.childEdges → getEdge3 g ceid = some ce →
              ce.dims = pe.dims)
          ∧ (∀ reid rpe rpn, pnd.typ = NodeType.Reshape →
              pnd.parentEdges[0]? = some reid → getEdge3 g reid = some rpe →
              getNode3 g rpe.parent = some rpn → rpn.childEdges.length = 1))) := by
  constructor
  · intro hne
    simp only [canBeInPlace, hnd]
    rw [if_pos hne]
  · intro eid pe pnd hone hpe hchild hpnd hresh hch
    have hlen : nd.parentEdges.length = 1 := by rw [hone]; rfl
    have hget0 : nd.parentEdges[0]? = some eid := by rw [hone]; rfl
    simp only [canBeInPlace, hnd]
    rw [if_neg (by simp [hlen])]
    simp only [getParentEdgeAt3, hget0, hpe]
    rw [hchild]
    simp only [hpnd, hnd]
    by_cases hc1 : pnd.childEdges.length = 1
    · rw [if_neg (by simp [hc1])]
      by_cases hc2 : pnd.isConst = true ∧ nd.isConst = false
      · rw [if_pos ⟨hc2.1, by simp [hc2.2]⟩]
        constructor
        · intro h
          exact absurd h (by simp)
        · rintro ⟨_, h2, _⟩
          exact absurd hc2 h2
      · rw [if_neg (by simpa [Bool.not_eq_true] using hc2)]
        by_cases hty : pnd.typ = NodeType.Reshape
        · obtain ⟨reid, rpe, rpn, h0, hre, hrn⟩ := hresh hty
          rw [if_pos ⟨hlen, hty⟩]
          simp only [getParentEdgeAt3, h0, hre, hrn]
          by_cases hc4 : rpn.childEdges.length = 1
          · rw [if_neg (by simp [hc4])]
            rw [childDimsEqual_ok_true_iff g pe.dims nd.childEdges hch]
            constructor
            · intro hdims
              refine ⟨hc1, hc2, hdims, ?_⟩
              intro reid' rpe' rpn' _ h0' hre' hrn'
              injection h0' with h00
              subst h00
              rw [hre] at hre'
              injection hre' with h01
              subst h01
              rw [hrn] at hrn'
              injection hrn' with h02
              subst h02
              exact hc4
            · rintro ⟨_, _, hdims, _⟩
              exact hdims
          · rw [if_pos (by simpa using hc4)]
            constructor
            · intro h
              exact absurd h (by simp)
            · rintro ⟨_, _, _, h4⟩
              exact absurd (h4 reid rpe rpn hty rfl hre hrn) hc4
        · rw [if_neg (fun hand => hty hand.2)]
          rw [childDimsEqual_ok_true_iff g pe.dims nd.childEdges hch]
          constructor
          · intro hdims
            exact ⟨hc1, hc2, hdims,
              fun reid' rpe' rpn' hty' _ _ _ => absurd hty' hty⟩
          · rintro ⟨_, _, hdims, _⟩
            exact hdims
    · rw [if_pos (by simpa using hc1)]
      constructor
      · intro h
        exact absurd h (by simp)
      · rintro ⟨h1, _⟩
        exact absurd h1 hc1

theorem C3_canBeInPlace_witness :
    canBeInPlace
      ⟨[(1, ⟨NodeType.Input, false, [], [7]⟩), (2, ⟨NodeType.Eltwise, false, [7], [8]⟩),
        (3, ⟨NodeType.Output, false, [8], []⟩)],
       [(7, ⟨1, 2, [4, 4]⟩), (8, ⟨2, 3, [4, 4]⟩)]⟩ 2 = Except.ok true := by
  have h := (C3_canBeInPlace
      ⟨[(1, ⟨NodeType.Input, false, [], [7]⟩), (2, ⟨NodeType.Eltwise, false, [7], [8]⟩),
        (3, ⟨NodeType.Output, false, [8], []⟩)],
       [(7, ⟨1, 2, [4, 4]⟩), (8, ⟨2, 3, [4, 4]⟩)]⟩ 2
      ⟨NodeType.Eltwise, false, [7], [8]⟩ rfl).2
    7 ⟨1, 2, [4, 4]⟩ ⟨NodeType.Input, false, [], [7]⟩ rfl rfl rfl rfl
    (fun hty => absurd hty (by decide))
    (by
      intro ceid hm
      simp only [List.mem_singleton] at hm
      subst hm
      exact ⟨⟨2, 3, [4, 4]⟩, rfl⟩)
  refine h.mpr ⟨rfl, by simp, ?_, fun reid rpe rpn hty _ _ _ => absurd hty (by decide)⟩
  intro ceid ce hm hce
  simp only [List.mem_singleton] at hm
  subst hm
  have : getEdge3
      ⟨[(1, ⟨NodeType.Input, false, [], [7]⟩), (2, ⟨NodeType.Eltwise, false, [7], [8]⟩),
        (3, ⟨NodeType.Output, false, [8], []⟩)],
       [(7, ⟨1, 2, [4, 4]⟩), (8, ⟨2, 3, [4, 4]⟩)]⟩ 8 = some ⟨2, 3, [4, 4]⟩ := rfl
  rw [this] at hce
  cases hce
  rfl

/-! ## `isConstant` / `checkConstant` (source lines 790-832)

Nodes carry the memoized tri-state classification and their neighbor node
ids (reached in the source through live edges).  The C++ worklist loop
overwrites the node's own `constant` member each iteration, so neighbors
examined by `checkConstant` observe the current loop value for this node;
the loop is given explicit fuel, and exhausting it yields `none`. -/

inductive ConstantType where
  | Unknown | Const | NoConst
deriving DecidableEq

structure N4 where
  constant : ConstantType
  children : List Nat
  parents : List Nat
deriving DecidableEq

abbrev G4 := List (Nat × N4)

def getN4 (g : G4) (n : Nat) : N4 :=
  (alookup g n).getD ⟨ConstantType.Unknown, [], []⟩

def setConst4 (g : G4) (n : Nat) (c : ConstantType) : G4 :=
  setA g n { getN4 g n with constant := c }

/-- `MKLDNNNode::checkConstant`: return the node's own classification; when
it is still Unknown, push its downstream (or upstream) neighbors that are
not already on the worklist. -/
def checkConstant (g : G4) (lookDown : Bool) (n : Nat) (wl : List Nat) :
    ConstantType × List Nat :=
  let nd := getN4 g n
  if nd.constant = ConstantType.Unknown then
    (nd.constant,
      (if lookDown then nd.children else nd.parents).foldl
        (fun acc c => if c ∈ acc then acc else acc ++ [c]) wl)
  else (nd.constant, wl)

/-- One `while (constant != NoConst && !checkNodes.empty())` loop of
`isConstant`: query the front node (through a graph view in which this
node's own field holds the current loop value), then pop it. -/
def constLoop (g : G4) (selfId : Nat) (lookDown : Bool) :
    Nat → ConstantType → List Nat → Option ConstantType
  | 0, _, _ => none
  | fuel + 1, c, wl =>
    if c = ConstantType.NoConst then some c
    else
      match wl with
      | [] => some c
      | n :: rest =>
        let res := checkConstant (setConst4 g selfId c) lookDown n (n :: rest)
        constLoop g selfId lookDown fuel res.1 res.2.tail

/-- `MKLDNNNode::isConstant`: memoized; else the downstream pass over the
children, and only if it did not conclude Const the upstream pass over the
parents; a still-Unknown outcome becomes NoConst.  Returns whether the node
is constant together with the updated graph. -/
def isConstant (g : G4) (n : Nat) (fuel : Nat) : Option (Bool × G4) :=
  let nd := getN4 g n
  if nd.constant ≠ ConstantType.Unknown then
    some ((nd.constant == ConstantType.Const), g)
  else
    match constLoop g n true fuel ConstantType.Unknown nd.children with
    | none => none
    | some c1 =>
      if c1 = ConstantType.Const then
        some (true, setConst4 g n ConstantType.Const)
      else
        match constLoop g n false fuel ConstantType.Unknown nd.parents with
        | none => none
        | some c2 =>
          some (((if c2 = ConstantType.Unknown then ConstantType.NoConst else c2)
              == ConstantType.Const),
            setConst4 g n (if c2 = ConstantType.Unknown then ConstantType.NoConst else c2))

theorem getN4_setConst4_self (g : G4) (n : Nat) (c : ConstantType) :
    getN4 (setConst4 g n c) n = { getN4 g n with constant := c } := by
  rw [getN4, setConst4, alookup_setA_self]
  rfl

/-- C4: `isConstant` resolves downstream first — when the child-worklist
pass concludes Const the result is constant without consulting the parents
— and otherwise retries upstream over the parents, defaulting a
still-unresolved classification to NoConst.  After a call that returns, the
node's stored classification is never Unknown, and every later call (any
fuel) returns the memoized result with the graph unchanged. -/
theorem C4_isConstant (g : G4) (n : Nat) (fuel : Nat) :
    ((getN4 g n).constant ≠ ConstantType.Unknown →
      isConstant g n fuel = some (((getN4 g n).constant == ConstantType.Const), g))
    ∧ (∀ b g2, isConstant g n fuel = some (b, g2) →
        (getN4 g2 n).constant ≠ ConstantType.Unknown
        ∧ ∀ fuel2, isConstant g2 n fuel2 = some (b, g2))
    ∧ ((getN4 g n).constant = ConstantType.Unknown →
        ∀ c1, constLoop g n true fuel ConstantType.Unknown (getN4 g n).children = some c1 →
          (c1 = ConstantType.Const →
            isConstant g n fuel = some (true, setConst4 g n ConstantType.Const))
          ∧ (c1 ≠ ConstantType.Const →
            ∀ c2, constLoop g n false fuel ConstantType.Unknown (getN4 g n).parents
                = some c2 →
              isConstant g n fuel
                = some (((if c2 = ConstantType.Unknown then ConstantType.NoConst else c2)
                    == ConstantType.Const),
                  setConst4 g n
                    (if c2 = ConstantType.Unknown then ConstantType.NoConst else c2)))) := by
  refine ⟨?_, ?_, ?_⟩
  · intro hmemo
    rw [isConstant]
    rw [if_pos hmemo]
  · intro b g2 h
    rw [isConstant] at h
    by_cases hm : (getN4 g n).constant = ConstantType.Unknown
    · rw [if_neg (by simp [hm])] at h
      cases hd : constLoop g n true fuel ConstantType.Unknown (getN4 g n).children with
      | none =>
        rw [hd] at h
        simp at h
      | some c1 =>
        simp only [hd] at h
        by_cases hc1 : c1 = ConstantType.Const
        · rw [if_pos hc1] at h
          injection h with h'
          have hb : b = true := (congrArg Prod.fst h').symm
          have hg : g2 = setConst4 g n ConstantType.Const := (congrArg Prod.snd h').symm
          subst hb
          subst hg
          constructor
          · rw [getN4_setConst4_self]
            simp
          · intro fuel2
            rw [isConstant]
            rw [if_pos (by rw [getN4_setConst4_self]; simp)]
            rw [getN4_setConst4_self]
            simp
        · rw [if_neg hc1] at h
          cases hu : constLoop g n false fuel ConstantType.Unknown (getN4 g n).parents with
          | none =>
            rw [hu] at h
            simp at h
          | some c2 =>
            simp only [hu] at h
            injection h with h'
            have hb : b = ((if c2 = ConstantType.Unknown then ConstantType.NoConst else c2)
                == ConstantType.Const) := (congrArg Prod.fst h').symm
            have hg : g2 = setConst4 g n
                (if c2 = ConstantType.Unknown then ConstantType.NoConst else c2) :=
              (congrArg Prod.snd h').symm
            have hcf : (if c2 = ConstantType.Unknown then ConstantType.NoConst else c2)
                ≠ ConstantType.Unknown := by
              cases c2 <;> simp
            subst hb
            subst hg
            constructor
            · rw [getN4_setConst4_self]
              exact hcf
            · intro fuel2
              rw [isConstant]
              rw [if_pos (by rw [getN4_setConst4_self]; exact hcf)]
              rw [getN4_setConst4_self]
    · rw [if_pos hm] at h
      injection h with h'
      have hb : b = ((getN4 g n).constant == ConstantType.Const) :=
        (congrArg Prod.fst h').symm
      have hg : g2 = g := (congrArg Prod.snd h').symm
      subst hb
      subst hg
      refine ⟨hm, ?_⟩
      intro fuel2
      rw [isConstant, if_pos hm]
  · intro hm c1 hc1loop
    constructor
    · intro hc1
      rw [isConstant]
      rw [if_neg (by simp [hm])]
      simp only [hc1loop]
      rw [if_pos hc1]
    · intro hc1 c2 hc2loop
      rw [isConstant]
      rw [if_neg (by simp [hm])]
      simp only [hc1loop]
      rw [if_neg hc1]
      simp only [hc2loop]

theorem C4_isConstant_witness :
    isConstant [(1, ⟨ConstantType.Unknown, [2], []⟩), (2, ⟨ConstantType.Const, [], []⟩)] 1 2
      = some (true,
        setConst4 [(1, ⟨ConstantType.Unknown, [2], []⟩), (2, ⟨ConstantType.Const, [], []⟩)]
          1 ConstantType.Const)
    ∧ isConstant
        (setConst4 [(1, ⟨ConstantType.Unknown, [2], []⟩), (2, ⟨ConstantType.Const, [], []⟩)]
          1 ConstantType.Const) 1 5
      = some (true,
        setConst4 [(1, ⟨ConstantType.Unknown, [2], []⟩), (2, ⟨ConstantType.Const, [], []⟩)]
          1 ConstantType.Const) := by
  have h3 := (C4_isConstant
      [(1, ⟨ConstantType.Unknown, [2], []⟩), (2, ⟨ConstantType.Const, [], []⟩)] 1 2).2.2
    rfl ConstantType.Const rfl
  have h1 := h3.1 rfl
  have h2 := (C4_isConstant
      [(1, ⟨ConstantType.Unknown, [2], []⟩), (2, ⟨ConstantType.Const, [], []⟩)] 1 2).2.1
    true _ h1
  exact ⟨h1, h2.2 5⟩

/-! ## `selectPreferPrimitiveDescriptor` (source lines 280-323)

Implementation tags and port layouts are abstract ids;
`MKLDNNExtensionUtils::initTensorsAreEqual` is abstracted to equality of
layout ids.  For each parent edge the selection only consults the edge's
input number and the parent's selected output-config layouts
(`outs = []` models a parent without a selection or with an empty
`outConfs`, which contributes no format match). -/

structure ParentInfo where
  inNum : Int
  outs : List Nat
deriving DecidableEq

structure PrimDesc1 where
  implType : Nat
  inConfs : List Nat
deriving DecidableEq

instance : Inhabited PrimDesc1 := ⟨⟨0, []⟩⟩

/-- One input port's format match against the parent's selected output
config; an out-of-range input number is clamped to output port 0. -/
def portMatch (p : ParentInfo) (l : Nat) : Bool :=
  if p.outs.isEmpty then false
  else
    l == p.outs.getD
      (if 0 ≤ p.inNum ∧ p.inNum < (p.outs.length : Int) then p.inNum.toNat else 0) 0

/-- `equalsLocalFormatCount`: matching input ports, port `j` against parent
edge `j`. -/
def descScore (parents : List ParentInfo) (d : PrimDesc1) : Nat :=
  (d.inConfs.zip parents).countP (fun q => portMatch q.2 q.1)

/-- One step of the inner `for (size_t i = 0; ...)` loop over the
enumerated descriptors: the state is `(selectedPrimitive,
equalsFormatCount)` (`none` for the initial `(-1, -1)`); a descriptor of
another tag is ignored, one with more input configs than the node has
parent edges is skipped, and otherwise it wins exactly on a strictly
greater match count. -/
def tierStep (parents : List ParentInfo) (t : Nat) (st : Option (Nat × Nat))
    (ix : Nat × PrimDesc1) : Option (Nat × Nat) :=
  if ix.2.implType = t then
    if ix.2.inConfs.length > parents.length then st
    else
      match st with
      | none => some (ix.1, descScore parents ix.2)
      | some bi =>
        if descScore parents ix.2 > bi.2 then some (ix.1, descScore parents ix.2) else some bi
  else st

def tierSelect (parents : List ParentInfo) (spds : List PrimDesc1) (t : Nat) : Option Nat :=
  (spds.enum.foldl (tierStep parents t) none).map Prod.fst

def selectLoop (parents : List ParentInfo) (spds : List PrimDesc1) :
    List Nat → Option Nat
  | [] => none
  | t :: ts =>
    match tierSelect parents spds t with
    | some i => some i
    | none => selectLoop parents spds ts

/-- `MKLDNNNode::selectPreferPrimitiveDescriptor`: first priority tier that
selects a descriptor wins; otherwise an empty supported list throws and a
non-empty one falls back to index 0. -/
def selectPreferPrimitiveDescriptor (priority : List Nat) (parents : List ParentInfo)
    (spds : List PrimDesc1) : Except Unit Nat :=
  match selectLoop parents spds priority with
  | some i => Except.ok i
  | none => if spds.isEmpty then Except.error () else Except.ok 0

/-! Specification-side definitions, written from the claim's words: within
a tier the candidates are the enumerated descriptors of that implementation
tag (the amendment additionally drops a candidate with more input configs
than the node has parent edges); the highest-scoring candidate wins with
ties broken by the lowest enumeration index; the first tier with any
candidate wins; with no tier yielding a candidate, index 0 is selected; an
empty enumerated list is an error. -/

def claimCandidates (spds : List PrimDesc1) (t : Nat) : List (Nat × PrimDesc1) :=
  spds.enum.filter (fun x => x.2.implType == t)

def amendedCandidates (parents : List ParentInfo) (spds : List PrimDesc1) (t : Nat) :
    List (Nat × PrimDesc1) :=
  spds.enum.filter
    (fun x => x.2.implType == t && decide (x.2.inConfs.length ≤ parents.length))

/-- Of two candidates, the later one (`y`) wins only with a strictly
greater match count. -/
def betterOf (parents : List ParentInfo) (x y : Nat × PrimDesc1) : Nat × PrimDesc1 :=
  if descScore parents y.2 > descScore parents x.2 then y else x

/-- The highest-scoring candidate, ties to the earliest. -/
def bestCandidate (parents : List ParentInfo) :
    List (Nat × PrimDesc1) → Option (Nat × PrimDesc1)
  | [] => none
  | x :: xs =>
    match bestCandidate parents xs with
    | none => some x
    | some y => some (betterOf parents x y)

def specTierClaim (parents : List ParentInfo) (spds : List PrimDesc1) (t : Nat) :
    Option Nat :=
  (bestCandidate parents (claimCandidates spds t)).map Prod.fst

def specTierAmended (parents : List ParentInfo) (spds : List PrimDesc1) (t : Nat) :
    Option Nat :=
  (bestCandidate parents (amendedCandidates parents spds t)).map Prod.fst

def specLoopClaim (parents : List ParentInfo) (spds : List PrimDesc1) :
    List Nat → Option Nat
  | [] => none
  | t :: ts =>
    match specTierClaim parents spds t with
    | some i => some i
    | none => specLoopClaim parents spds ts

def specLoopAmended (parents : List ParentInfo) (spds : List PrimDesc1) :
    List Nat → Option Nat
  | [] => none
  | t :: ts =>
    match specTierAmended parents spds t with
    | some i => some i
    | none => specLoopAmended parents spds ts

def selectSpecClaim (priority : List Nat) (parents : List ParentInfo)
    (spds : List PrimDesc1) : Except Unit Nat :=
  if spds = [] then Except.error ()
  else
    match specLoopClaim parents spds priority with
    | some i => Except.ok i
    | none => Except.ok 0

def selectSpecAmended (priority : List Nat) (parents : List ParentInfo)
    (spds : List PrimDesc1) : Except Unit Nat :=
  if spds = [] then Except.error ()
  else
    match specLoopAmended parents spds priority with
    | some i => Except.ok i
    | none => Except.ok 0

theorem betterOf_assoc (parents : List ParentInfo) (y x k : Nat × PrimDesc1) :
    betterOf parents (betterOf parents y x) k
      = betterOf parents y (betterOf parents x k) := by
  simp only [betterOf]
  split_ifs <;> first | rfl | omega

/-- The inner loop restricted to its eligible entries (state is
`(selectedPrimitive, equalsFormatCount)`). -/
def pairFold (parents : List ParentInfo) (st : Option (Nat × Nat))
    (x : Nat × PrimDesc1) : Option (Nat × Nat) :=
  match st with
  | none => some (x.1, descScore parents x.2)
  | some bi =>
    if descScore parents x.2 > bi.2 then some (x.1, descScore parents x.2) else some bi

theorem foldl_tierStep_filter (parents : List ParentInfo) (t : Nat) :
    ∀ (l : List (Nat × PrimDesc1)) (st : Option (Nat × Nat)),
    l.foldl (tierStep parents t) st
      = (l.filter (fun x => x.2.implType == t
          && decide (x.2.inConfs.length ≤ parents.length))).foldl (pairFold parents) st := by
  intro l
  induction l with
  | nil => intro st; rfl
  | cons x xs ih =>
    intro st
    by_cases h1 : x.2.implType = t
    · by_cases h2 : x.2.inConfs.length ≤ parents.length
      · have hfc : (x :: xs).filter (fun x : Nat × PrimDesc1 => x.2.implType == t
            && decide (x.2.inConfs.length ≤ parents.length))
            = x :: xs.filter (fun x : Nat × PrimDesc1 => x.2.implType == t
              && decide (x.2.inConfs.length ≤ parents.length)) := by
          simp [List.filter_cons, h1, h2]
        rw [List.foldl_cons, hfc, List.foldl_cons, ih (tierStep parents t st x)]
        congr 1
        rw [tierStep.eq_def, if_pos h1, if_neg (by omega)]
        cases st with
        | none => rfl
        | some bi => rfl
      · have hfc : (x :: xs).filter (fun x : Nat × PrimDesc1 => x.2.implType == t
            && decide (x.2.inConfs.length ≤ parents.length))
            = xs.filter (fun x : Nat × PrimDesc1 => x.2.implType == t
              && decide (x.2.inConfs.length ≤ parents.length)) := by
          simp [List.filter_cons, h2]
        rw [List.foldl_cons, hfc, ih (tierStep parents t st x)]
        congr 1
        rw [tierStep.eq_def, if_pos h1, if_pos (by omega)]
    · have hfc : (x :: xs).filter (fun x : Nat × PrimDesc1 => x.2.implType == t
          && decide (x.2.inConfs.length ≤ parents.length))
          = xs.filter (fun x : Nat × PrimDesc1 => x.2.implType == t
            && decide (x.2.inConfs.length ≤ parents.length)) := by
        simp [List.filter_cons, h1]
      rw [List.foldl_cons, hfc, ih (tierStep parents t st x)]
      congr 1
      rw [tierStep.eq_def, if_neg h1]

theorem foldl_pairFold_best (parents : List ParentInfo) :
    ∀ (L : List (Nat × PrimDesc1)) (y : Nat × PrimDesc1),
    L.foldl (pairFold parents) (some (y.1, descScore parents y.2))
      = some ((((bestCandidate parents L).elim y (betterOf parents y)).1),
          descScore parents (((bestCandidate parents L).elim y (betterOf parents y)).2)) := by
  intro L
  induction L with
  | nil => intro y; rfl
  | cons x xs ih =>
    intro y
    rw [List.foldl_cons]
    have hstep : pairFold parents (some (y.1, descScore parents y.2)) x
        = some ((betterOf parents y x).1, descScore parents (betterOf parents y x).2) := by
      rw [pairFold, betterOf]
      split_ifs <;> rfl
    rw [hstep, ih (betterOf parents y x)]
    cases hbc : bestCandidate parents xs with
    | none => simp [bestCandidate, hbc, Option.elim]
    | some k =>
      simp only [bestCandidate, hbc, Option.elim]
      rw [betterOf_assoc]

theorem tierSelect_eq_specTierAmended (parents : List ParentInfo)
    (spds : List PrimDesc1) (t : Nat) :
    tierSelect parents spds t = specTierAmended parents spds t := by
  rw [tierSelect, foldl_tierStep_filter, specTierAmended, amendedCandidates]
  generalize (spds.enum.filter
    (fun x => x.2.implType == t && decide (x.2.inConfs.length ≤ parents.length))) = L
  cases L with
  | nil => rfl
  | cons x xs =>
    rw [List.foldl_cons]
    have hstep : pairFold parents none x = some (x.1, descScore parents x.2) := rfl
    rw [hstep, foldl_pairFold_best]
    cases hbc : bestCandidate parents xs with
    | none => simp [bestCandidate, hbc, Option.elim]
    | some k => simp [bestCandidate, hbc, Option.elim]

theorem selectLoop_eq_specLoopAmended (parents : List ParentInfo)
    (spds : List PrimDesc1) :
    ∀ ps, selectLoop parents spds ps = specLoopAmended parents spds ps := by
  intro ps
  induction ps with
  | nil => rfl
  | cons t ts ih =>
    simp only [selectLoop, specLoopAmended, tierSelect_eq_specTierAmended, ih]

theorem selectLoop_nil (parents : List ParentInfo) :
    ∀ ps, selectLoop parents [] ps = none := by
  intro ps
  induction ps with
  | nil => rfl
  | cons t ts ih => simp [selectLoop, tierSelect, ih]

/-- C1 amended: `selectPreferPrimitiveDescriptor` equals the claim's
algorithm amended with the one skip the claim omits — within a tier a
candidate whose number of input configs exceeds the node's parent-edge
count is skipped.  The spec function encodes: per-tier scoring by matching
input-port layouts against the parents' already-selected output layouts
(an unselected parent contributes nothing), highest score wins with ties
to the lowest enumeration index, the first tier with a candidate wins,
index 0 is the fallback, and an empty supported list is the only error.
Determinism is immediate since both sides are functions of their
arguments. -/
theorem C1_select_equals_amended_spec (priority : List Nat)
    (parents : List ParentInfo) (spds : List PrimDesc1) :
    selectPreferPrimitiveDescriptor priority parents spds
      = selectSpecAmended priority parents spds := by
  rw [selectPreferPrimitiveDescriptor, selectSpecAmended,
    selectLoop_eq_specLoopAmended]
  by_cases hs : spds = []
  · subst hs
    have hnone : specLoopAmended parents [] priority = none := by
      rw [← selectLoop_eq_specLoopAmended]
      exact selectLoop_nil parents priority
    simp [hnone]
  · rw [if_neg hs]
    cases h : specLoopAmended parents spds priority with
    | some i => simp [h]
    | none => simp [h, List.isEmpty_iff, hs]

/-- C1 as stated is false: with one parent edge (no selection yet),
priority `[1, 2]` and descriptors `0 : (tag 1, two input configs)`,
`1 : (tag 2, one input config)`, the code skips descriptor 0 in tier 1
(it has more input configs than the node has parent edges) and selects
descriptor 1 in tier 2, while the claim's algorithm selects descriptor 0
in tier 1. -/
theorem C1_claim_counterexample :
    selectPreferPrimitiveDescriptor [1, 2] [⟨0, []⟩] [⟨1, [5, 5]⟩, ⟨2, [5]⟩]
      = Except.ok 1
    ∧ selectSpecClaim [1, 2] [⟨0, []⟩] [⟨1, [5, 5]⟩, ⟨2, [5]⟩] = Except.ok 0 :=
  ⟨rfl, rfl⟩
